import Mathlib

/-!
Verification of the collaborative-canvas repository core against its
specification.  The definitions below are shallow embeddings of the
JavaScript source files:

* `server/rooms.js`        — the `Room` class (operation log, user map)
* `server/drawing-state.js`— connection registry and `broadcastToRoom`
* `server/server.js`       — the per-connection message handlers
* `client/canvas.js`       — the snapshot undo/redo history and batching
* `client/websocket.js`    — the client connection manager and batcher
* `client/main.js`         — UI glue (undo/redo button guards, overrides)
-/

namespace CollabCanvas

/-! ## Drawing operations (shape from §6 of the spec / client `drawingBuffer` entries) -/

/-- One drawing operation, as carried in `drawing` messages:
`{ type, x, y, tool, color, width, timestamp }`. -/
structure Op where
  ty : String
  x : Int
  y : Int
  tool : String
  color : String
  width : Nat
  timestamp : Nat
deriving Repr, DecidableEq

/-- In `rooms.js` `addDrawingOperation`: each pushed entry is
`{ ...op, timestamp: Date.now() }`, i.e. the operation with its timestamp
replaced by the server receipt time. -/
def stampOp (now : Nat) (op : Op) : Op :=
  { op with timestamp := now }

/-- From `rooms.js`: `this.maxHistorySize = 1000`. -/
def maxHistorySize : Nat := 1000

/-- Embedding of `rooms.js` `Room.addDrawingOperation(operations)`:
push every operation (restamped with the receipt time), then if the log
exceeds `maxHistorySize` keep only the last `maxHistorySize` entries
(`slice(-this.maxHistorySize)`). -/
def addDrawingOperation (now : Nat) (hist : List Op) (ops : List Op) : List Op :=
  let h := hist ++ ops.map (stampOp now)
  if h.length > maxHistorySize then h.drop (h.length - maxHistorySize) else h

/-- Embedding of `rooms.js` `Room.getDrawingHistory()`: returns the log as-is. -/
def getDrawingHistory (hist : List Op) : List Op := hist

/-- A sequence of `addDrawingOperation` calls: each call carries its receipt
time and its batch of operations. -/
def appendRuns (hist : List Op) (runs : List (Nat × List Op)) : List Op :=
  runs.foldl (fun h r => addDrawingOperation r.1 h r.2) hist

/-- All operations ever appended by `runs`, restamped, in receipt order. -/
def allStamped (runs : List (Nat × List Op)) : List Op :=
  (runs.map (fun r => r.2.map (stampOp r.1))).flatten

/-! ## Connection registry and broadcast engine (`server/drawing-state.js`) -/

/-- An entry of the `userConnections` registry
(`userId -> { ws, userId, userData, roomId }`); we keep the fields the
broadcast path reads: the connection id standing for the `ws` reference,
and the room the user joined. -/
structure ConnInfo where
  connId : Nat
  roomId : String
deriving Repr, DecidableEq

/-- A member of `wss.clients`: its `userId` property (assigned only in
`handleUserJoin`, hence optional before a join) and its `readyState`
(1 = OPEN). -/
structure Client where
  userId : Option String
  readyState : Nat
deriving Repr, DecidableEq

/-- The lookup `userConnections.get(client.userId)` on the association-list model of a
JS `Map`; `get(undefined)` yields `undefined`. -/
def lookupConn (m : List (String × ConnInfo)) : Option String → Option ConnInfo
  | none => none
  | some u => (m.find? (fun p => p.1 == u)).map (·.2)

/-- Embedding of `drawing-state.js` `getRoomClients(roomId, wss)`: the clients whose
`userId` is registered in `userConnections`, whose registered room is
`roomId`, and whose socket is OPEN (`readyState === 1`). -/
def getRoomClients (conns : List (String × ConnInfo)) (roomId : String)
    (wss : List Client) : List Client :=
  wss.filter (fun c =>
    match lookupConn conns c.userId with
    | some d => d.roomId == roomId && c.readyState == 1
    | none => false)

/-- Embedding of `drawing-state.js` `broadcastToRoom(roomId, message, wss, excludeUserId)`:
the clients the message is transmitted to, in enumeration order (each one
receives `JSON.stringify(message)`; the message contents do not influence
recipient selection). -/
def broadcastToRoom (conns : List (String × ConnInfo)) (roomId : String)
    (wss : List Client) (excludeUserId : Option String) : List Client :=
  (getRoomClients conns roomId wss).filter (fun c =>
    (match excludeUserId with
     | none => true
     | some x => c.userId != some x) && c.readyState == 1)

/-! ## Client local history engine (`client/canvas.js`) -/

/-- A full-surface snapshot (`ctx.getImageData(...)`), abstracted as an
identifier: the history engine only stores, indexes and restores snapshots,
never inspects their pixels. -/
abbrev Snap := Nat

/-- The undo/redo history fields of `CanvasDrawing`; the constructor sets
`this.history = []` and `this.historyStep = 0`. -/
structure HistState where
  history : List Snap
  historyStep : Nat
deriving Repr, DecidableEq

/-- From `canvas.js`: `this.maxHistorySteps = 50`. -/
def maxHistorySteps : Nat := 50

/-- Embedding of `canvas.js` `saveHistory()`: truncate the redo branch
(`this.history.slice(0, this.historyStep + 1)`), push the current snapshot,
then on overflow `shift()` without touching `historyStep`, otherwise
increment `historyStep`. -/
def saveHistory (s : HistState) (snap : Snap) : HistState :=
  let h := s.history.take (s.historyStep + 1) ++ [snap]
  if h.length > maxHistorySteps then
    { history := h.drop 1, historyStep := s.historyStep }
  else
    { history := h, historyStep := s.historyStep + 1 }

/-- Embedding of `canvas.js` `redo()`: step forward when
`historyStep < history.length - 1` (truncated subtraction agrees with the
JS comparison for every state of the model, where `historyStep ≥ 0`). -/
def redo (s : HistState) : HistState :=
  if s.historyStep < s.history.length - 1 then
    { s with historyStep := s.historyStep + 1 }
  else s

/-- The state built by the `CanvasDrawing` constructor: fresh fields, then
one `saveHistory()` of the blank surface. -/
def constructorHist (snap : Snap) : HistState :=
  saveHistory { history := [], historyStep := 0 } snap

/-- The methods the `CanvasDrawing` class in `client/canvas.js` defines;
the class declares no `undo` method. -/
def canvasDrawingMethods : List String :=
  ["constructor", "setupCanvas", "handleResize", "setupEventListeners",
   "getCanvasCoordinates", "startDrawing", "draw", "drawLine", "stopDrawing",
   "handleTouchStart", "handleTouchMove", "setTool", "updateCursor",
   "setColor", "setStrokeWidth", "clearCanvas", "applyRemoteDrawing",
   "redo", "saveHistory", "redrawFromHistory", "updateCanvasSize",
   "emitDrawing", "emitMouseMove", "exportCanvas", "copyCanvasToClipboard"]

/-- Modelled from the spec (§4.7): the undo operation the specification
describes — if `step > 0`, decrement `step` and redraw from the snapshot at
the new `step`; no-op at the lower bound. `CanvasDrawing` defines no such
method, so this is the spec's intent, not repository code. -/
def specUndo (s : HistState) : HistState :=
  if s.historyStep > 0 then { s with historyStep := s.historyStep - 1 } else s

/-- The `client/main.js` undo button / Ctrl+Z handler:
`if (window.canvas && window.canvas.undo) { window.canvas.undo(); }` — the
call is made only when the class provides an `undo` method, so with the
class as written the handler does nothing. -/
def undoClick (s : HistState) : HistState :=
  if canvasDrawingMethods.contains "undo" then specUndo s else s

/-! ## Client operation batcher
(`client/canvas.js` stroke buffering, `client/websocket.js` network
buffering, and the `client/main.js` override wiring them together) -/

/-- Client batching state: the `CanvasDrawing` stroke buffer and sync clock,
the `WebSocketManager` network buffer and flush clock, the drawing flag, and
the `drawing` messages transmitted so far (send time paired with the batched
operations, oldest first). -/
structure BatchState where
  isDrawing : Bool
  canvasBuf : List Op
  lastSyncTime : Nat
  wsBuf : List Op
  lastFlushTime : Nat
  sent : List (Nat × List Op)
deriving Repr, DecidableEq

/-- From `canvas.js`: `this.batchInterval = 50`. -/
def batchInterval : Nat := 50

/-- From `websocket.js`: `this.flushInterval = 50`. -/
def flushInterval : Nat := 50

/-- Embedding of `websocket.js` `flushDrawingBuffer()`: no-op on an empty buffer,
otherwise transmit one `drawing` message carrying the batched operations,
clear the buffer and record the flush time. -/
def flushDrawingBuffer (now : Nat) (s : BatchState) : BatchState :=
  if s.wsBuf.isEmpty then s
  else { s with sent := s.sent ++ [(now, s.wsBuf)], wsBuf := [],
                lastFlushTime := now }

/-- Embedding of `websocket.js` `sendDrawing(operation)`: buffer the operation; flush
only when more than `flushInterval` ms have passed since the last flush. -/
def sendDrawing (now : Nat) (s : BatchState) (op : Op) : BatchState :=
  let s1 := { s with wsBuf := s.wsBuf ++ [op] }
  if now - s1.lastFlushTime > flushInterval then flushDrawingBuffer now s1
  else s1

/-- The `main.js` override of `canvas.emitDrawing`: forward every buffered
stroke operation to `wsManager.sendDrawing` and clear the stroke buffer. -/
def emitDrawing (now : Nat) (s : BatchState) : BatchState :=
  if s.canvasBuf.isEmpty then s
  else
    let s1 := s.canvasBuf.foldl (fun st op => sendDrawing now st op) s
    { s1 with canvasBuf := [] }

/-- Embedding of `canvas.js` `startDrawing(e)`: begin a gesture and buffer the `start`
operation (the eyedropper guard is outside this model). -/
def startDrawing (_now : Nat) (s : BatchState) (op : Op) : BatchState :=
  { s with isDrawing := true, canvasBuf := s.canvasBuf ++ [op] }

/-- Embedding of `canvas.js` `draw(e)`: ignore when not drawing; buffer the `draw`
operation and, when more than `batchInterval` ms have passed since the last
sync, emit and reset the sync clock. -/
def drawEvent (now : Nat) (s : BatchState) (op : Op) : BatchState :=
  if !s.isDrawing then s
  else
    let s1 := { s with canvasBuf := s.canvasBuf ++ [op] }
    if now - s1.lastSyncTime > batchInterval then
      { (emitDrawing now s1) with lastSyncTime := now }
    else s1

/-- Embedding of `canvas.js` `stopDrawing()`: ignore when not drawing; end the gesture,
emit any buffered stroke operations (resetting the sync clock), then clear
the stroke buffer. -/
def stopDrawing (now : Nat) (s : BatchState) : BatchState :=
  if !s.isDrawing then s
  else
    let s1 := { s with isDrawing := false }
    let s2 := if s1.canvasBuf.isEmpty then s1
              else { (emitDrawing now s1) with lastSyncTime := now }
    { s2 with canvasBuf := [] }

/-- A local pointer event with its occurrence time. -/
inductive PtrEvent where
  | start (t : Nat) (op : Op)
  | move (t : Nat) (op : Op)
  | release (t : Nat)
deriving Repr, DecidableEq

/-- Dispatch one pointer event through the canvas handlers. -/
def batchStep (s : BatchState) : PtrEvent → BatchState
  | .start t op => startDrawing t s op
  | .move t op => drawEvent t s op
  | .release t => stopDrawing t s

/-- Process a sequence of pointer events. -/
def runBatch (s : BatchState) (evs : List PtrEvent) : BatchState :=
  evs.foldl batchStep s

/-- State at construction time `t0`: both clocks start at `Date.now()` of
construction, buffers empty, nothing sent. -/
def initBatch (t0 : Nat) : BatchState :=
  { isDrawing := false, canvasBuf := [], lastSyncTime := t0,
    wsBuf := [], lastFlushTime := t0, sent := [] }

/-- Each time in the list lies strictly more than `flushInterval` after its
predecessor (the first one after `t0`). -/
def spacedFrom (t0 : Nat) : List Nat → Prop
  | [] => True
  | t :: ts => t - t0 > flushInterval ∧ spacedFrom t ts

/-- The time of the last flush: the last send time, or the construction
time when nothing has been sent. -/
def lastTimeOf (t0 : Nat) (ts : List Nat) : Nat :=
  ts.foldl (fun _ t => t) t0

/-- The batcher invariant: all send times are properly spaced, and the
flush clock records the last of them. -/
def BatchInv (t0 : Nat) (s : BatchState) : Prop :=
  spacedFrom t0 (s.sent.map Prod.fst) ∧
  s.lastFlushTime = lastTimeOf t0 (s.sent.map Prod.fst)

/-! ## Client reconnection policy (`client/websocket.js`) -/

/-- The reconnection-relevant fields of `WebSocketManager`:
`isConnected` and `reconnectAttempts`. -/
structure WSClientState where
  isConnected : Bool
  reconnectAttempts : Nat
deriving Repr, DecidableEq

/-- From `websocket.js`: `this.maxReconnectAttempts = 5`. -/
def maxReconnectAttempts : Nat := 5

/-- From `websocket.js`: `this.reconnectDelay = 3000` (milliseconds). -/
def reconnectDelay : Nat := 3000

/-- Embedding of `websocket.js` `handleOpen()`: mark connected and reset the attempt
counter to zero (then send `user_join`, i.e. re-enter the Joined state). -/
def handleOpen (_s : WSClientState) : WSClientState :=
  { isConnected := true, reconnectAttempts := 0 }

/-- Embedding of `websocket.js` `attemptReconnect()`: under the ceiling, increment the
counter and schedule one `connect()` after `reconnectDelay`; at the
ceiling, give up and schedule nothing.  Returns the scheduled delays. -/
def attemptReconnect (s : WSClientState) : WSClientState × List Nat :=
  if s.reconnectAttempts < maxReconnectAttempts then
    ({ s with reconnectAttempts := s.reconnectAttempts + 1 }, [reconnectDelay])
  else (s, [])

/-- Embedding of `websocket.js` `handleClose()`: mark disconnected, then try to
reconnect. -/
def handleClose (s : WSClientState) : WSClientState × List Nat :=
  attemptReconnect { s with isConnected := false }

/-- Transport events visible to the manager: the socket opened, or the
socket closed (covering both graceful close and failed connect attempts,
which surface as error-then-close). -/
inductive WSEvent where
  | open_
  | close
deriving Repr, DecidableEq

/-- One transport event; returns the new state and the scheduled
reconnect delays. -/
def wsStep (s : WSClientState) : WSEvent → WSClientState × List Nat
  | .open_ => (handleOpen s, [])
  | .close => handleClose s

/-- Run a sequence of transport events, accumulating scheduled delays. -/
def runWS (s : WSClientState) (evs : List WSEvent) : WSClientState × List Nat :=
  evs.foldl (fun acc e =>
    let r := wsStep acc.1 e
    (r.1, acc.2 ++ r.2)) (s, [])

/-- Constructor state: `isConnected = false`, `reconnectAttempts = 0`. -/
def initWS : WSClientState :=
  { isConnected := false, reconnectAttempts := 0 }

/-- Reachable-state invariant: the counter never exceeds the ceiling, and a
connected manager has a reset counter. -/
def WSInv (s : WSClientState) : Prop :=
  s.reconnectAttempts ≤ maxReconnectAttempts ∧
  (s.isConnected = true → s.reconnectAttempts = 0)

/-! ## Server connection state machine
(`server/server.js` message dispatch and close handling, over the `Room`
class of `server/rooms.js` and the registry of `server/drawing-state.js`) -/

/-- The `userData` record built in `handleUserJoin`. -/
structure UserData where
  userId : String
  userName : String
  userColor : String
  joinedAt : Nat
deriving Repr, DecidableEq

/-- The `rooms.js` `Room` class: the users `Map` (insertion-ordered association list)
and the drawing operation log. -/
structure Room where
  users : List (String × UserData)
  drawingHistory : List Op
deriving Repr, DecidableEq

/-- A fresh `new Room(roomId)`: empty users, empty history. -/
def emptyRoom : Room := { users := [], drawingHistory := [] }

/-- JS `Map.set`: overwrite in place when the key exists, else append
(JS `Map` keeps the original insertion position on overwrite). -/
def mapSet {κ α : Type} [BEq κ] (m : List (κ × α)) (k : κ) (v : α) :
    List (κ × α) :=
  if m.any (fun p => p.1 == k) then
    m.map (fun p => if p.1 == k then (k, v) else p)
  else m ++ [(k, v)]

/-- JS `Map.delete`. -/
def mapDelete {κ α : Type} [BEq κ] (m : List (κ × α)) (k : κ) :
    List (κ × α) :=
  m.filter (fun p => p.1 != k)

/-- JS `Map.get`. -/
def mapGet {κ α : Type} [BEq κ] (m : List (κ × α)) (k : κ) : Option α :=
  (m.find? (fun p => p.1 == k)).map (·.2)

/-- Embedding of `rooms.js` `getUsers()`: `Array.from(this.users.values())`. -/
def Room.getUsers (r : Room) : List UserData := r.users.map (·.2)

/-- The per-connection closure state of `server.js`'s connection handler
(`let userId = null; let userData = null;`), together with whether the
underlying socket is still open.  The `userId` field also models the
`ws.userId` property assigned at join (the two are always equal). -/
structure SConn where
  isOpen : Bool
  userId : Option String
  userData : Option UserData
deriving Repr, DecidableEq

/-- The whole server state: the rooms registry of `rooms.js`, the
`userConnections` registry of `drawing-state.js`, and the per-connection
handler states (keyed by connection id). -/
structure ServerState where
  rooms : List (String × Room)
  userConnections : List (String × ConnInfo)
  conns : List (Nat × SConn)
deriving Repr, DecidableEq

/-- Embedding of `rooms.js` `getOrCreateRoom(roomId)`: create the room on first
reference. -/
def getOrCreateRoom (rooms : List (String × Room)) (rid : String) :
    List (String × Room) :=
  if (mapGet rooms rid).isSome then rooms else rooms ++ [(rid, emptyRoom)]

/-- Mutation of connection `c`'s handler closure (assignment to the
captured `userId`/`userData` variables, or the socket closing), expressed
functionally: every other connection's state is untouched. -/
def updateConn (l : List (Nat × SConn)) (c : Nat) (f : SConn → SConn) :
    List (Nat × SConn) :=
  l.map (fun p => if p.1 == c then (p.1, f p.2) else p)

/-- Inbound client messages relevant to the claims (`ping` and
`canvas_sync` touch neither room users nor the log and are omitted;
unparseable or unknown messages are dropped by the dispatch `switch` before
any handler runs). -/
inductive CMsg where
  | userJoin (userId userName userColor : String)
  | drawing (operations : List Op) (timestamp : Nat)
  | cursorMove (x y : Int) (timestamp : Nat)
deriving Repr, DecidableEq

/-- Outbound server messages. -/
inductive SMsg where
  | userList (users : List UserData)
  | drawingHistory (operations : List Op)
  | syncComplete (historySize : Nat)
  | userJoined (userId userName userColor : String)
  | userLeft (userId userName : String)
  | drawing (userId : String) (operations : List Op) (timestamp : Nat)
  | cursorMove (userId : String) (x y : Int) (timestamp : Nat)
deriving Repr, DecidableEq

/-- An output action: a direct `ws.send` to one connection, or a
`broadcastToRoom(roomId, message, wss, excludeUserId)` fan-out. -/
inductive OutAct where
  | send (c : Nat) (m : SMsg)
  | broadcast (roomId : String) (m : SMsg) (excludeUserId : Option String)
deriving Repr, DecidableEq

/-- Embedding of `server.js` `handleUserJoin(ws, message, room)` with the fixed
`roomId = 'default'`: set the closure `userId`/`userData`, register the
user in the room and in `userConnections`, assign `ws.userId`, then send
the participant list, the history replay (if non-empty), the sync-complete
acknowledgment, and broadcast the join notice excluding the joiner. -/
def handleUserJoin (s : ServerState) (c : Nat)
    (uid uname ucolor : String) (now : Nat) : ServerState × List OutAct :=
  let ud : UserData :=
    { userId := uid, userName := uname, userColor := ucolor, joinedAt := now }
  let rooms1 := getOrCreateRoom s.rooms "default"
  let room := (mapGet rooms1 "default").getD emptyRoom
  let room1 := { room with users := mapSet room.users uid ud }
  let rooms2 := mapSet rooms1 "default" room1
  let uconns := mapSet s.userConnections uid { connId := c, roomId := "default" }
  let conns := updateConn s.conns c
    (fun q => { q with userId := some uid, userData := some ud })
  let hist := room1.drawingHistory
  ({ rooms := rooms2, userConnections := uconns, conns := conns },
    [OutAct.send c (SMsg.userList room1.getUsers)] ++
    (if hist.isEmpty then [] else [OutAct.send c (SMsg.drawingHistory hist)]) ++
    [OutAct.send c (SMsg.syncComplete hist.length),
     OutAct.broadcast "default" (SMsg.userJoined uid uname ucolor) (some uid)])

/-- Embedding of `server.js` `handleDrawing(ws, message, room)`: ignore entirely before a
join (`if (!userId) return;`), otherwise append the operations to the
room's log and broadcast them excluding the sender.  (`message.operations`
is modelled as a well-formed array; a missing or non-array field skips both
effects, exactly like the `none` branch here skips them.) -/
def handleDrawing (s : ServerState) (cs : SConn) (ops : List Op)
    (ts now : Nat) : ServerState × List OutAct :=
  match cs.userId with
  | none => (s, [])
  | some uid =>
      let rooms1 := getOrCreateRoom s.rooms "default"
      let room := (mapGet rooms1 "default").getD emptyRoom
      let room1 :=
        { room with drawingHistory := addDrawingOperation now room.drawingHistory ops }
      ({ s with rooms := mapSet rooms1 "default" room1 },
        [OutAct.broadcast "default" (SMsg.drawing uid ops ts) (some uid)])

/-- Embedding of `server.js` `handleCursorMove(ws, message, room)`: ignore before a join,
otherwise broadcast the position excluding the sender (never logged). -/
def handleCursorMove (s : ServerState) (cs : SConn) (x y : Int)
    (ts : Nat) : ServerState × List OutAct :=
  match cs.userId with
  | none => (s, [])
  | some uid =>
      (s, [OutAct.broadcast "default" (SMsg.cursorMove uid x y ts) (some uid)])

/-- Embedding of `server.js` `ws.on('close')`: when the closure `userId` is set, remove
the user from the room, broadcast the leave notice, and drop the
`userConnections` entry; either way the socket is now closed. -/
def handleSocketClose (s : ServerState) (c : Nat) (cs : SConn) :
    ServerState × List OutAct :=
  let conns := updateConn s.conns c (fun q => { q with isOpen := false })
  match cs.userId with
  | none => ({ s with conns := conns }, [])
  | some uid =>
      let rooms1 := getOrCreateRoom s.rooms "default"
      let room := (mapGet rooms1 "default").getD emptyRoom
      let room1 := { room with users := mapDelete room.users uid }
      let uname := (cs.userData.map (·.userName)).getD "Unknown"
      ({ rooms := mapSet rooms1 "default" room1,
         userConnections := mapDelete s.userConnections uid,
         conns := conns },
        [OutAct.broadcast "default" (SMsg.userLeft uid uname) none])

/-- Embedding of `wss.on('connection')`: a fresh socket with a fresh handler closure
(`userId = null`).  Connection ids are unique, so an event reusing a live
id is a no-op. -/
def handleConnect (s : ServerState) (c : Nat) : ServerState :=
  if (mapGet s.conns c).isSome then s
  else
    { s with conns :=
        s.conns ++ [(c, { isOpen := true, userId := none, userData := none })] }

/-- A server-side event: a new connection, an inbound message (with its
receipt time, the `Date.now()` the handlers read), or a socket close. -/
inductive SEvent where
  | connect (c : Nat)
  | msg (c : Nat) (m : CMsg) (now : Nat)
  | close (c : Nat)
deriving Repr, DecidableEq

/-- One server event.  Messages and closes only fire on sockets that exist
and are still open (a closed `ws` emits no further events). -/
def serverStep (s : ServerState) : SEvent → ServerState × List OutAct
  | .connect c => (handleConnect s c, [])
  | .msg c m now =>
      match mapGet s.conns c with
      | none => (s, [])
      | some cs =>
          if cs.isOpen then
            match m with
            | .userJoin uid un uc => handleUserJoin s c uid un uc now
            | .drawing ops ts => handleDrawing s cs ops ts now
            | .cursorMove x y ts => handleCursorMove s cs x y ts
          else (s, [])
  | .close c =>
      match mapGet s.conns c with
      | none => (s, [])
      | some cs =>
          if cs.isOpen then handleSocketClose s c cs else (s, [])

/-- Run a sequence of server events (final state only). -/
def runServer (s : ServerState) (evs : List SEvent) : ServerState :=
  evs.foldl (fun st e => (serverStep st e).1) s

/-- The empty server at process start. -/
def initServer : ServerState :=
  { rooms := [], userConnections := [], conns := [] }

/-- The participant ids currently held by the `'default'` room. -/
def roomUserIds (s : ServerState) : List String :=
  ((mapGet s.rooms "default").getD emptyRoom).users.map Prod.fst

/-- The current `'default'` room of a server state. -/
def roomOf (s : ServerState) : Room :=
  (mapGet s.rooms "default").getD emptyRoom

/-- The per-connection id discipline and the no-ghost property: connection
keys are unique, every assigned closure `userId` is its connection's fixed
id, and the `'default'` room's participant set is exactly the set of ids of
currently-open joined connections. -/
def GhostFree (uidOf : Nat → String) (s : ServerState) : Prop :=
  (s.conns.map Prod.fst).Nodup ∧
  (∀ p ∈ s.conns, ∀ u, p.2.userId = some u → u = uidOf p.1) ∧
  (∀ u, u ∈ roomUserIds s ↔
    ∃ p ∈ s.conns, p.2.isOpen = true ∧ p.2.userId = some u)

/-- Per-connection join-id discipline of an event: any `user_join` carried
by connection `c` uses that connection's fixed client id `uidOf c`
(`websocket.js` generates one id per manager instance and re-sends the same
id on every `user_join` of that connection). -/
def joinConsistent (uidOf : Nat → String) : SEvent → Bool
  | .msg c (.userJoin uid _ _) _ => uid == uidOf c
  | _ => true

/-! ## Lemmas and theorems -/

/-- Both branches of the cap check compute a `drop` of the concatenation
(`drop 0` when under the cap, thanks to truncated subtraction). -/
lemma addDrawingOperation_eq_drop (now : Nat) (hist ops : List Op) :
    addDrawingOperation now hist ops =
      (hist ++ ops.map (stampOp now)).drop
        ((hist ++ ops.map (stampOp now)).length - maxHistorySize) := by
  unfold addDrawingOperation
  set h := hist ++ ops.map (stampOp now) with hh
  by_cases hc : h.length > maxHistorySize
  · simp [hc]
  · have : h.length - maxHistorySize = 0 := by omega
    simp [hc, this]

/-- Folding appends from a log that is itself a `drop`-suffix of some
sequence yields the `drop`-suffix of the extended sequence. -/
lemma appendRuns_drop (runs : List (Nat × List Op)) :
    ∀ (pre : List Op),
      appendRuns (pre.drop (pre.length - maxHistorySize)) runs =
        (pre ++ allStamped runs).drop ((pre ++ allStamped runs).length - maxHistorySize) := by
  induction runs with
  | nil =>
      intro pre
      simp [appendRuns, allStamped]
  | cons r rs ih =>
      intro pre
      have hstep :
          addDrawingOperation r.1 (pre.drop (pre.length - maxHistorySize)) r.2 =
            ((pre ++ r.2.map (stampOp r.1)).drop
              ((pre ++ r.2.map (stampOp r.1)).length - maxHistorySize)) := by
        rw [addDrawingOperation_eq_drop]
        have hle : pre.length - maxHistorySize ≤ pre.length := Nat.sub_le _ _
        rw [← List.drop_append_of_le_length hle, List.drop_drop]
        have harith :
            pre.length - maxHistorySize +
                (((pre ++ r.2.map (stampOp r.1)).drop (pre.length - maxHistorySize)).length
                  - maxHistorySize) =
              (pre ++ r.2.map (stampOp r.1)).length - maxHistorySize := by
          rw [List.length_drop, List.length_append]
          omega
        rw [harith]
      have := ih (pre ++ r.2.map (stampOp r.1))
      calc appendRuns (pre.drop (pre.length - maxHistorySize)) (r :: rs)
          = appendRuns (addDrawingOperation r.1 (pre.drop (pre.length - maxHistorySize)) r.2) rs := by
            simp [appendRuns]
        _ = appendRuns ((pre ++ r.2.map (stampOp r.1)).drop
              ((pre ++ r.2.map (stampOp r.1)).length - maxHistorySize)) rs := by rw [hstep]
        _ = ((pre ++ r.2.map (stampOp r.1)) ++ allStamped rs).drop
              (((pre ++ r.2.map (stampOp r.1)) ++ allStamped rs).length - maxHistorySize) := this
        _ = (pre ++ allStamped (r :: rs)).drop
              ((pre ++ allStamped (r :: rs)).length - maxHistorySize) := by
            simp [allStamped, List.append_assoc]

/-- Starting from the empty log, any sequence of appends leaves exactly the
most recent `maxHistorySize`-suffix of everything appended. -/
lemma appendRuns_nil_eq (runs : List (Nat × List Op)) :
    appendRuns [] runs =
      (allStamped runs).drop ((allStamped runs).length - maxHistorySize) := by
  have := appendRuns_drop runs []
  simpa using this

/-- Joining singleton batches is just the map of their contents. -/
lemma join_map_singleton {α β : Type} (l : List α) (g : α → β) :
    (l.map (fun i => [g i])).flatten = l.map g := by
  induction l with
  | nil => simp
  | cons a as ih => simp [ih]

/-- C1: for every room, after any sequence of `addDrawingOperation` calls on
its operation log (capped at `maxHistorySize = 1000`), the log length is at
most 1000 and `getDrawingHistory` returns exactly the most recent
`min (total appended) 1000` operations in their original receipt order; in
particular, after appending 1050 operations one at a time, replay returns
operations 51..1050 (0-based indices 50..1049) in order. -/
theorem c1_operation_log_cap (runs : List (Nat × List Op)) :
    (getDrawingHistory (appendRuns [] runs)).length ≤ maxHistorySize ∧
    getDrawingHistory (appendRuns [] runs) =
      (allStamped runs).drop ((allStamped runs).length - maxHistorySize) ∧
    (getDrawingHistory (appendRuns [] runs)).length =
      min (allStamped runs).length maxHistorySize ∧
    ∀ (f : Nat → Op) (t : Nat → Nat),
      getDrawingHistory
          (appendRuns [] ((List.range 1050).map (fun i => (t i, [f i])))) =
        ((List.range 1050).map (fun i => stampOp (t i) (f i))).drop 50 := by
  refine ⟨?_, ?_, ?_, ?_⟩
  · rw [getDrawingHistory, appendRuns_nil_eq, List.length_drop]
    omega
  · rw [getDrawingHistory, appendRuns_nil_eq]
  · rw [getDrawingHistory, appendRuns_nil_eq, List.length_drop]
    omega
  · intro f t
    rw [getDrawingHistory, appendRuns_nil_eq]
    have hall :
        allStamped ((List.range 1050).map (fun i => (t i, [f i]))) =
          (List.range 1050).map (fun i => stampOp (t i) (f i)) := by
      unfold allStamped
      rw [List.map_map]
      exact join_map_singleton (List.range 1050) (fun i => stampOp (t i) (f i))
    rw [hall]
    have hlen : ((List.range 1050).map (fun i => stampOp (t i) (f i))).length = 1050 := by
      simp
    rw [hlen]
    norm_num [maxHistorySize]

/-- Membership characterization of the broadcast recipient list. -/
lemma mem_broadcastToRoom (conns : List (String × ConnInfo)) (roomId : String)
    (wss : List Client) (X : String) (c : Client) :
    c ∈ broadcastToRoom conns roomId wss (some X) ↔
      c ∈ wss ∧ c.readyState = 1 ∧
      (∃ d, lookupConn conns c.userId = some d ∧ d.roomId = roomId) ∧
      c.userId ≠ some X := by
  rw [broadcastToRoom, getRoomClients, List.mem_filter, List.mem_filter]
  constructor
  · rintro ⟨⟨hw, hg⟩, hx⟩
    cases hl : lookupConn conns c.userId with
    | none => rw [hl] at hg; simp at hg
    | some d =>
        rw [hl] at hg
        simp only [Bool.and_eq_true, beq_iff_eq] at hg
        refine ⟨hw, hg.2, ⟨d, rfl, hg.1⟩, ?_⟩
        simp only [Bool.and_eq_true, bne_iff_ne, ne_eq] at hx
        exact hx.1
  · rintro ⟨hw, hr, ⟨d, hl, hd⟩, hne⟩
    refine ⟨⟨hw, ?_⟩, ?_⟩
    · rw [hl]
      simp [hd, hr]
    · simp [hne, hr]

/-- C6: for every call `broadcastToRoom(roomId, message, excludeUserId = X)`,
the message is sent exactly to those clients whose connection is open
(`readyState` 1), whose registered room is `roomId`, and whose `userId`
differs from `X`; in particular the excluded participant `X` never receives
the message, regardless of how many other recipients exist. -/
theorem c6_broadcast_exclusion (conns : List (String × ConnInfo))
    (roomId : String) (wss : List Client) (X : String) :
    (∀ c, c ∈ broadcastToRoom conns roomId wss (some X) ↔
        c ∈ wss ∧ c.readyState = 1 ∧
        (∃ d, lookupConn conns c.userId = some d ∧ d.roomId = roomId) ∧
        c.userId ≠ some X) ∧
    ∀ c ∈ broadcastToRoom conns roomId wss (some X), c.userId ≠ some X := by
  refine ⟨fun c => mem_broadcastToRoom conns roomId wss X c, fun c hc => ?_⟩
  exact ((mem_broadcastToRoom conns roomId wss X c).mp hc).2.2.2

/-- C3 (code bug): the invariant `0 ≤ step < history.length` fails
immediately after the very first `saveHistory` performed in the
`CanvasDrawing` constructor: the history holds one snapshot but
`historyStep` is already 1 (the repository's own ARCHITECTURE document
starts `historyStep` at -1, which would make the first save land on
step 0; the code starts at 0 instead). -/
theorem c3_history_invariant_violated :
    (constructorHist 0).history.length = 1 ∧
    (constructorHist 0).historyStep = 1 ∧
    ¬ ((constructorHist 0).historyStep < (constructorHist 0).history.length) := by
  refine ⟨rfl, rfl, ?_⟩
  decide

/-- C2 (code bug): `CanvasDrawing` provides no undo operation at all — the
class defines no `undo` method, the UI's guarded handlers therefore never
change the history state, and in particular a click with `step = 2 > 0`
leaves `step` at 2 instead of decrementing it as the spec requires. -/
theorem c2_undo_missing :
    ("undo" ∉ canvasDrawingMethods) ∧
    (∀ s : HistState, undoClick s = s) ∧
    (undoClick { history := [0, 1, 2], historyStep := 2 }).historyStep = 2 := by
  have h : "undo" ∉ canvasDrawingMethods := by decide
  refine ⟨h, fun s => by simp [undoClick, h], by simp [undoClick, h]⟩

lemma lastTimeOf_append (t0 : Nat) (ts : List Nat) (t : Nat) :
    lastTimeOf t0 (ts ++ [t]) = t := by
  simp [lastTimeOf]

lemma spacedFrom_append (t0 t : Nat) (ts : List Nat)
    (h : spacedFrom t0 ts) (hgap : t - lastTimeOf t0 ts > flushInterval) :
    spacedFrom t0 (ts ++ [t]) := by
  induction ts generalizing t0 with
  | nil => exact ⟨by simpa [lastTimeOf] using hgap, trivial⟩
  | cons a as ih =>
      obtain ⟨h1, h2⟩ := h
      exact ⟨h1, ih a h2 (by simpa [lastTimeOf] using hgap)⟩

lemma sendDrawing_inv (t0 now : Nat) (s : BatchState) (op : Op)
    (h : BatchInv t0 s) : BatchInv t0 (sendDrawing now s op) := by
  obtain ⟨hsp, hlf⟩ := h
  unfold sendDrawing flushDrawingBuffer
  dsimp only
  by_cases hc : now - s.lastFlushTime > flushInterval
  · rw [if_pos hc, if_neg (by simp : ¬ ((s.wsBuf ++ [op]).isEmpty = true))]
    constructor
    · simp only [BatchInv, List.map_append, List.map_cons, List.map_nil]
      exact spacedFrom_append t0 now _ hsp (by rw [← hlf]; exact hc)
    · simp [lastTimeOf_append]
  · rw [if_neg hc]
    exact ⟨hsp, hlf⟩

lemma foldl_sendDrawing_inv (t0 now : Nat) (ops : List Op) :
    ∀ s : BatchState, BatchInv t0 s →
      BatchInv t0 (ops.foldl (fun st op => sendDrawing now st op) s) := by
  induction ops with
  | nil => intro s h; exact h
  | cons a as ih =>
      intro s h
      exact ih _ (sendDrawing_inv t0 now s a h)

lemma emitDrawing_inv (t0 now : Nat) (s : BatchState)
    (h : BatchInv t0 s) : BatchInv t0 (emitDrawing now s) := by
  unfold emitDrawing
  by_cases hc : s.canvasBuf.isEmpty
  · simpa [hc] using h
  · simp only [hc, Bool.false_eq_true, if_neg, Bool.not_eq_true]
    have h1 := foldl_sendDrawing_inv t0 now s.canvasBuf s h
    exact ⟨h1.1, h1.2⟩

lemma batchStep_inv (t0 : Nat) (s : BatchState) (e : PtrEvent)
    (h : BatchInv t0 s) : BatchInv t0 (batchStep s e) := by
  cases e with
  | start t op =>
      simp only [batchStep, startDrawing]
      exact ⟨h.1, h.2⟩
  | move t op =>
      simp only [batchStep, drawEvent]
      by_cases hd : !s.isDrawing
      · simp only [hd, if_pos]; exact h
      · simp only [hd, Bool.false_eq_true, if_neg, Bool.not_eq_true]
        set s1 : BatchState := { s with canvasBuf := s.canvasBuf ++ [op] }
        have h1 : BatchInv t0 s1 := ⟨h.1, h.2⟩
        by_cases hc : t - s1.lastSyncTime > batchInterval
        · simp only [hc, if_pos]
          have h2 := emitDrawing_inv t0 t s1 h1
          exact ⟨h2.1, h2.2⟩
        · simp only [hc, if_neg]
          exact h1
  | release t =>
      simp only [batchStep, stopDrawing]
      by_cases hd : !s.isDrawing
      · simp only [hd, if_pos]; exact h
      · simp only [hd, Bool.false_eq_true, if_neg, Bool.not_eq_true]
        set s1 : BatchState := { s with isDrawing := false }
        have h1 : BatchInv t0 s1 := ⟨h.1, h.2⟩
        by_cases hc : s1.canvasBuf.isEmpty
        · simp only [hc, if_pos]
          exact ⟨h1.1, h1.2⟩
        · simp only [hc, Bool.false_eq_true, if_neg, Bool.not_eq_true]
          have h2 := emitDrawing_inv t0 t s1 h1
          exact ⟨h2.1, h2.2⟩

lemma runBatch_inv (t0 : Nat) (evs : List PtrEvent) :
    ∀ s : BatchState, BatchInv t0 s → BatchInv t0 (runBatch s evs) := by
  induction evs with
  | nil => intro s h; exact h
  | cons e es ih =>
      intro s h
      exact ih _ (batchStep_inv t0 s e h)

/-- C7 counterexample: a gesture that starts 10 ms and ends 20 ms after
construction leaves its operation in the network buffer with nothing
transmitted — gesture end does NOT always trigger an immediate flush of a
non-empty operation buffer (the flush in `sendDrawing` is still gated on
the 50 ms interval). -/
theorem c7_gesture_end_no_flush :
    (runBatch (initBatch 0)
        [.start 10 { ty := "start", x := 5, y := 5, tool := "brush",
                     color := "#000000", width := 3, timestamp := 10 },
         .release 20]).sent = [] ∧
    (runBatch (initBatch 0)
        [.start 10 { ty := "start", x := 5, y := 5, tool := "brush",
                     color := "#000000", width := 3, timestamp := 10 },
         .release 20]).wsBuf ≠ [] := by
  constructor
  · rfl
  · decide

/-- C7 amended: for every sequence of local pointer events, no drawing
network message is transmitted until strictly more than the 50 ms flush
interval has elapsed since the last flush (or since construction), with no
exception — in particular gesture end forwards buffered operations to the
network layer but transmits them only if the interval has already elapsed. -/
theorem c7_no_early_send (t0 : Nat) (evs : List PtrEvent) :
    spacedFrom t0 ((runBatch (initBatch t0) evs).sent.map Prod.fst) := by
  have h0 : BatchInv t0 (initBatch t0) := by
    constructor
    · trivial
    · rfl
  exact (runBatch_inv t0 evs (initBatch t0) h0).1

lemma wsStep_inv (s : WSClientState) (e : WSEvent) (h : WSInv s) :
    WSInv (wsStep s e).1 := by
  cases e with
  | open_ => exact ⟨Nat.zero_le _, fun _ => rfl⟩
  | close =>
      simp only [wsStep, handleClose, attemptReconnect]
      by_cases hc : s.reconnectAttempts < maxReconnectAttempts
      · simp only [hc, if_pos]
        exact ⟨hc, fun hfalse => by simp at hfalse⟩
      · simp only [hc, if_neg]
        exact ⟨h.1, fun hfalse => by simp at hfalse⟩

lemma runWS_acc (evs : List WSEvent) :
    ∀ (s : WSClientState) (acc : List Nat),
      evs.foldl (fun a e =>
          let r := wsStep a.1 e
          (r.1, a.2 ++ r.2)) (s, acc) =
        ((runWS s evs).1, acc ++ (runWS s evs).2) := by
  induction evs with
  | nil => intro s acc; simp [runWS]
  | cons e es ih =>
      intro s acc
      have h1 := ih (wsStep s e).1 (acc ++ (wsStep s e).2)
      have h2 := ih (wsStep s e).1 ([] ++ (wsStep s e).2)
      simp only [runWS, List.foldl_cons]
      simp only [runWS] at h1 h2
      rw [h1, h2]
      simp [List.append_assoc]

/-- Unfolding one step of `runWS`. -/
lemma runWS_cons (s : WSClientState) (e : WSEvent) (es : List WSEvent) :
    runWS s (e :: es) =
      ((runWS (wsStep s e).1 es).1,
        (wsStep s e).2 ++ (runWS (wsStep s e).1 es).2) := by
  have := runWS_acc es (wsStep s e).1 ([] ++ (wsStep s e).2)
  simp only [runWS, List.foldl_cons]
  simp only [runWS] at this
  rw [this]
  simp

lemma runWS_inv (evs : List WSEvent) :
    ∀ s : WSClientState, WSInv s → WSInv (runWS s evs).1 := by
  induction evs with
  | nil => intro s h; exact h
  | cons e es ih =>
      intro s h
      rw [runWS_cons]
      exact ih _ (wsStep_inv s e h)

/-- Without an intervening open, the counter grows by exactly the number of
scheduled reconnects and never passes (the max of its start value and) the
ceiling. -/
lemma runWS_no_open (evs : List WSEvent) (hno : ∀ e ∈ evs, e ≠ WSEvent.open_) :
    ∀ s : WSClientState,
      (runWS s evs).1.reconnectAttempts =
        s.reconnectAttempts + (runWS s evs).2.length ∧
      (runWS s evs).1.reconnectAttempts ≤ max s.reconnectAttempts maxReconnectAttempts := by
  induction evs with
  | nil =>
      intro s
      exact ⟨rfl, Nat.le_max_left _ _⟩
  | cons e es ih =>
      intro s
      have he : e = WSEvent.close := by
        cases e with
        | open_ => exact absurd rfl (hno _ (List.mem_cons_self _ _))
        | close => rfl
      subst he
      have hrest : ∀ f ∈ es, f ≠ WSEvent.open_ :=
        fun f hf => hno f (List.mem_cons_of_mem _ hf)
      rw [runWS_cons]
      simp only [wsStep, handleClose, attemptReconnect]
      by_cases hc : s.reconnectAttempts < maxReconnectAttempts
      · rw [if_pos hc]
        have h := ih hrest
          { isConnected := false, reconnectAttempts := s.reconnectAttempts + 1 }
        constructor
        · rw [h.1]
          simp only [List.length_append, List.length_cons, List.length_nil]
          omega
        · refine le_trans h.2 ?_
          simp only [max_le_iff]
          exact ⟨by simp; omega, le_max_right _ _⟩
      · rw [if_neg hc]
        have h := ih hrest
          { isConnected := false, reconnectAttempts := s.reconnectAttempts }
        constructor
        · rw [h.1]
          simp
        · exact le_trans h.2 (by simp)

/-- Every scheduled delay equals `reconnectDelay`. -/
lemma runWS_delays (evs : List WSEvent) :
    ∀ s : WSClientState, ∀ d ∈ (runWS s evs).2, d = reconnectDelay := by
  induction evs with
  | nil => intro s d hd; simp [runWS] at hd
  | cons e es ih =>
      intro s d hd
      rw [runWS_cons] at hd
      simp only [List.mem_append] at hd
      cases hd with
      | inl h1 =>
          cases e with
          | open_ => simp [wsStep] at h1
          | close =>
              simp only [wsStep, handleClose, attemptReconnect] at h1
              by_cases hc : s.reconnectAttempts < maxReconnectAttempts
              · rw [if_pos hc] at h1
                simpa using h1
              · rw [if_neg hc] at h1
                simp at h1
      | inr h2 => exact ih _ d h2

/-- C9: from any reachable manager state, (i) a close while connected
(Joined) schedules exactly one reconnect after the fixed 3000 ms delay;
(ii) without an intervening successful open at most 5 reconnects are ever
scheduled; (iii) a successful re-entry into Joined resets the attempt
counter to zero; (iv) once the 5-attempt ceiling is reached, absent a
successful open no further reconnect is ever scheduled; (v) every scheduled
delay is the fixed 3000 ms. -/
theorem c9_reconnect_policy (evs run : List WSEvent) :
    ((runWS initWS evs).1.isConnected = true →
      (wsStep (runWS initWS evs).1 .close).2 = [reconnectDelay]) ∧
    ((∀ e ∈ run, e ≠ WSEvent.open_) →
      (runWS (runWS initWS evs).1 run).2.length ≤ maxReconnectAttempts) ∧
    ((wsStep (runWS initWS evs).1 .open_).1.reconnectAttempts = 0) ∧
    ((runWS initWS evs).1.reconnectAttempts = maxReconnectAttempts →
      (∀ e ∈ run, e ≠ WSEvent.open_) →
      (runWS (runWS initWS evs).1 run).2 = []) ∧
    (∀ d ∈ (runWS (runWS initWS evs).1 run).2, d = reconnectDelay) := by
  have hinv : WSInv (runWS initWS evs).1 :=
    runWS_inv evs initWS ⟨by decide, fun h => by simp [initWS] at h⟩
  set s := (runWS initWS evs).1 with hs
  refine ⟨?_, ?_, ?_, ?_, ?_⟩
  · intro hconn
    have h0 : s.reconnectAttempts = 0 := hinv.2 hconn
    simp [wsStep, handleClose, attemptReconnect, h0, maxReconnectAttempts]
  · intro hno
    have h := runWS_no_open run hno s
    have hle : s.reconnectAttempts ≤ maxReconnectAttempts := hinv.1
    have h2 : (runWS s run).1.reconnectAttempts ≤ maxReconnectAttempts := by
      refine le_trans h.2 ?_
      simp [max_le_iff, hle]
    omega
  · simp [wsStep, handleOpen]
  · intro hceil hno
    have h := runWS_no_open run hno s
    have h2 : (runWS s run).1.reconnectAttempts ≤ maxReconnectAttempts := by
      refine le_trans h.2 ?_
      simp [max_le_iff, hinv.1]
    have : (runWS s run).2.length = 0 := by omega
    exact List.length_eq_zero.mp this
  · exact runWS_delays run s

/-- Witness for `c9_reconnect_policy`: after one successful open, a close
schedules exactly one 3000 ms reconnect, and six consecutive closes without
a successful open schedule at most 5 reconnects. -/
theorem c9_reconnect_policy_witness :
    (wsStep (runWS initWS [WSEvent.open_]).1 .close).2 = [reconnectDelay] ∧
    (runWS (runWS initWS [WSEvent.open_]).1
        [.close, .close, .close, .close, .close, .close]).2.length ≤
      maxReconnectAttempts := by
  have h := c9_reconnect_policy [WSEvent.open_]
    [.close, .close, .close, .close, .close, .close]
  exact ⟨h.1 (by decide), h.2.1 (by decide)⟩

/-! ### Association-list facts about the JS `Map` model -/

lemma mapGet_mapSet_self {κ α : Type} [BEq κ] [LawfulBEq κ]
    (m : List (κ × α)) (k : κ) (v : α) :
    mapGet (mapSet m k v) k = some v := by
  induction m with
  | nil => simp [mapSet, mapGet]
  | cons p ps ih =>
      by_cases hk : p.1 == k
      · have : (p :: ps).any (fun q => q.1 == k) = true := by
          simp [List.any_cons, hk]
        simp only [mapSet, this, if_pos, List.map_cons, hk, if_pos]
        simp [mapGet, List.find?]
      · have hk' : (p.1 == k) = false := by simpa using hk
        by_cases hps : ps.any (fun q => q.1 == k)
        · have hany : (p :: ps).any (fun q => q.1 == k) = true := by
            simp [List.any_cons, hps]
          simp only [mapSet, hany, if_pos, List.map_cons, hk']
          rw [if_neg (by simp [hk'])]
          simp only [mapGet, List.find?, hk']
          have := ih
          simp only [mapSet, hps, if_pos] at this
          simpa [mapGet] using this
        · have hps' : ps.any (fun q => q.1 == k) = false := Bool.eq_false_iff.mpr hps
          have hany : (p :: ps).any (fun q => q.1 == k) = false := by
            simp [List.any_cons, hk', hps']
          simp only [mapSet, hany, Bool.false_eq_true, if_neg, List.cons_append]
          simp only [mapGet, List.find?, hk']
          have := ih
          simp only [mapSet, hps', Bool.false_eq_true, if_neg] at this
          simpa [mapGet] using this

lemma mem_mapSet_self {κ α : Type} [BEq κ] [LawfulBEq κ]
    (m : List (κ × α)) (k : κ) (v : α) :
    (k, v) ∈ mapSet m k v := by
  unfold mapSet
  by_cases h : m.any (fun p => p.1 == k)
  · rw [if_pos h]
    obtain ⟨p, hp, hpk⟩ := List.any_eq_true.mp h
    refine List.mem_map.mpr ⟨p, hp, ?_⟩
    simp [hpk]
  · rw [if_neg h]
    exact List.mem_append_right _ (List.mem_singleton.mpr rfl)

lemma mem_keys_mapSet {κ α : Type} [BEq κ] [LawfulBEq κ]
    (m : List (κ × α)) (k : κ) (v : α) (u : κ) :
    u ∈ (mapSet m k v).map Prod.fst ↔ u ∈ m.map Prod.fst ∨ u = k := by
  unfold mapSet
  by_cases h : m.any (fun p => p.1 == k)
  · rw [if_pos h]
    obtain ⟨p, hp, hpk⟩ := List.any_eq_true.mp h
    have hkmem : k ∈ m.map Prod.fst := by
      have : p.1 = k := by simpa using hpk
      exact this ▸ List.mem_map_of_mem _ hp
    have hkeys : (m.map (fun q => if q.1 == k then (k, v) else q)).map Prod.fst =
        m.map Prod.fst := by
      rw [List.map_map]
      apply List.map_congr_left
      intro q _
      by_cases hq : q.1 == k
      · have hq' : q.1 = k := by simpa using hq
        simp [Function.comp_apply, hq, hq']
      · simp [Function.comp_apply, hq]
    rw [hkeys]
    constructor
    · exact Or.inl
    · rintro (hu | rfl)
      · exact hu
      · exact hkmem
  · rw [if_neg h]
    simp

lemma mem_keys_mapDelete {κ α : Type} [BEq κ] [LawfulBEq κ]
    (m : List (κ × α)) (k : κ) (u : κ) :
    u ∈ (mapDelete m k).map Prod.fst ↔ u ∈ m.map Prod.fst ∧ u ≠ k := by
  unfold mapDelete
  simp only [List.mem_map, List.mem_filter, bne_iff_ne, ne_eq]
  constructor
  · rintro ⟨p, ⟨hp, hpk⟩, rfl⟩
    exact ⟨⟨p, hp, rfl⟩, by simpa using hpk⟩
  · rintro ⟨⟨p, hp, rfl⟩, hu⟩
    exact ⟨p, ⟨hp, by simpa using hu⟩, rfl⟩

lemma mapGet_eq_some_mem {κ α : Type} [BEq κ] [LawfulBEq κ]
    {m : List (κ × α)} {k : κ} {v : α} (h : mapGet m k = some v) :
    (k, v) ∈ m := by
  unfold mapGet at h
  obtain ⟨p, hfind, hv⟩ := Option.map_eq_some'.mp h
  have hmem := List.mem_of_find?_eq_some hfind
  have hkey := List.find?_some hfind
  obtain ⟨p1, p2⟩ := p
  have h1 : p1 = k := by simpa using hkey
  have h2 : p2 = v := hv
  subst h1
  subst h2
  exact hmem

lemma mapGet_eq_none_not_mem {κ α : Type} [BEq κ] [LawfulBEq κ]
    {m : List (κ × α)} {k : κ} (h : mapGet m k = none) :
    k ∉ m.map Prod.fst := by
  intro hk
  obtain ⟨p, hp, hpk⟩ := List.mem_map.mp hk
  unfold mapGet at h
  rw [Option.map_eq_none'] at h
  rw [List.find?_eq_none] at h
  exact h p hp (by simp [hpk])

/-- The room the handlers read after `getOrCreateRoom` is the room the
state already held (or the fresh empty room, which is also what the
default lookup yields). -/
lemma roomAfter_getOrCreateRoom (rooms : List (String × Room)) (rid : String) :
    (mapGet (getOrCreateRoom rooms rid) rid).getD emptyRoom =
      (mapGet rooms rid).getD emptyRoom := by
  unfold getOrCreateRoom
  by_cases h : (mapGet rooms rid).isSome
  · rw [if_pos h]
  · rw [if_neg h]
    rw [Option.not_isSome_iff_eq_none] at h
    rw [h]
    unfold mapGet at h ⊢
    rw [Option.map_eq_none'] at h
    rw [List.find?_eq_none] at h
    have : List.find? (fun p => p.1 == rid) (rooms ++ [(rid, emptyRoom)]) =
        some (rid, emptyRoom) := by
      induction rooms with
      | nil => simp [List.find?]
      | cons q qs ih =>
          simp only [List.cons_append, List.find?]
          have hq : (q.1 == rid) = false := by
            have := h q (List.mem_cons_self _ _)
            simpa using this
          rw [hq]
          exact ih (fun p hp => h p (List.mem_cons_of_mem _ hp))
    rw [this]
    rfl

/-- C10: a `drawing` or `cursor_move` message arriving on a connection on
which no `user_join` has yet been processed (closure `userId` still null)
is ignored atomically: the entire server state — in particular the room's
operation log — is unchanged, and no message is sent or broadcast. -/
theorem c10_prejoin_messages_ignored (s : ServerState) (c : Nat) (cs : SConn)
    (ops : List Op) (x y : Int) (ts now : Nat)
    (hconn : mapGet s.conns c = some cs) (huid : cs.userId = none) :
    serverStep s (.msg c (.drawing ops ts) now) = (s, []) ∧
    serverStep s (.msg c (.cursorMove x y ts) now) = (s, []) := by
  constructor <;>
    · simp only [serverStep, hconn]
      cases ho : cs.isOpen <;>
        simp [handleDrawing, handleCursorMove, huid, ho]

/-- Witness for `c10_prejoin_messages_ignored`: a freshly connected socket
that has not joined sends a drawing and a cursor move; both are dropped
with the state intact. -/
theorem c10_prejoin_messages_ignored_witness :
    mapGet (handleConnect initServer 0).conns 0 =
        some { isOpen := true, userId := none, userData := none } ∧
    ({ isOpen := true, userId := none, userData := none } : SConn).userId = none ∧
    serverStep (handleConnect initServer 0)
        (.msg 0 (.drawing [] 3) 4) = (handleConnect initServer 0, []) ∧
    serverStep (handleConnect initServer 0)
        (.msg 0 (.cursorMove 1 2 3) 4) = (handleConnect initServer 0, []) := by
  have h := c10_prejoin_messages_ignored (handleConnect initServer 0) 0
    { isOpen := true, userId := none, userData := none } [] 1 2 3 4
    (by decide) rfl
  exact ⟨by decide, rfl, h.1, h.2⟩

/-- C8 (code bug): `handleDrawing` performs no coordinate validation at
all — an operation whose `x` lies outside the surface (here `x = -50`) is
appended to the room's log and broadcast to the other participants
completely unchanged, not clipped to the bounds. -/
theorem c8_no_clipping :
    (serverStep
        (runServer initServer
          [.connect 0, .msg 0 (.userJoin "u1" "Alice" "#112233") 5])
        (.msg 0 (.drawing
          [{ ty := "draw", x := -50, y := 20, tool := "brush",
             color := "#000000", width := 3, timestamp := 7 }] 7) 9)).1.rooms =
      [("default",
        { users := [("u1", { userId := "u1", userName := "Alice",
                             userColor := "#112233", joinedAt := 5 })],
          drawingHistory :=
            [{ ty := "draw", x := -50, y := 20, tool := "brush",
               color := "#000000", width := 3, timestamp := 9 }] })] ∧
    (serverStep
        (runServer initServer
          [.connect 0, .msg 0 (.userJoin "u1" "Alice" "#112233") 5])
        (.msg 0 (.drawing
          [{ ty := "draw", x := -50, y := 20, tool := "brush",
             color := "#000000", width := 3, timestamp := 7 }] 7) 9)).2 =
      [OutAct.broadcast "default"
        (SMsg.drawing "u1"
          [{ ty := "draw", x := -50, y := 20, tool := "brush",
             color := "#000000", width := 3, timestamp := 7 }] 7)
        (some "u1")] := by
  constructor <;> rfl

/-- C5: when an Unjoined connection (closure `userId` still null) processes
`user_join`, the server registers the participant into the room and then,
in this order: (a) sends the joining connection a `user_list` carrying the
full current participant list (which includes the joiner), (b) sends a
`drawing_history` message with the full operation log iff the log is
non-empty, (c) sends `sync_complete` carrying `historySize` equal to the
log length, and (d) broadcasts a `user_joined` notice with the joiner as
the excluded participant. -/
theorem c5_join_sync_order (s : ServerState) (c : Nat) (cs : SConn)
    (uid uname ucolor : String) (now : Nat)
    (hconn : mapGet s.conns c = some cs) (hopen : cs.isOpen = true)
    (_huid : cs.userId = none) :
    uid ∈ roomUserIds (serverStep s (.msg c (.userJoin uid uname ucolor) now)).1 ∧
    ({ userId := uid, userName := uname, userColor := ucolor,
       joinedAt := now } : UserData)
      ∈ (roomOf (serverStep s (.msg c (.userJoin uid uname ucolor) now)).1).getUsers ∧
    (serverStep s (.msg c (.userJoin uid uname ucolor) now)).2 =
      [OutAct.send c (SMsg.userList
          (roomOf (serverStep s (.msg c (.userJoin uid uname ucolor) now)).1).getUsers)] ++
      (if (roomOf s).drawingHistory.isEmpty then []
       else [OutAct.send c (SMsg.drawingHistory (roomOf s).drawingHistory)]) ++
      [OutAct.send c (SMsg.syncComplete (roomOf s).drawingHistory.length),
       OutAct.broadcast "default" (SMsg.userJoined uid uname ucolor) (some uid)] ∧
    (OutAct.send c (SMsg.drawingHistory (roomOf s).drawingHistory)
        ∈ (serverStep s (.msg c (.userJoin uid uname ucolor) now)).2 ↔
      (roomOf s).drawingHistory ≠ []) := by
  have hstep : serverStep s (.msg c (.userJoin uid uname ucolor) now) =
      handleUserJoin s c uid uname ucolor now := by
    simp [serverStep, hconn, hopen]
  have hroom : (mapGet (getOrCreateRoom s.rooms "default") "default").getD emptyRoom
      = roomOf s := roomAfter_getOrCreateRoom s.rooms "default"
  rw [hstep]
  unfold handleUserJoin
  simp only [hroom]
  refine ⟨?_, ?_, ?_, ?_⟩
  · simp only [roomUserIds, mapGet_mapSet_self, Option.getD_some]
    exact (mem_keys_mapSet _ _ _ _).mpr (Or.inr rfl)
  · simp only [roomOf, mapGet_mapSet_self, Option.getD_some, Room.getUsers]
    exact List.mem_map_of_mem _ (mem_mapSet_self _ _ _)
  · simp only [roomOf, mapGet_mapSet_self, Option.getD_some]
  · by_cases hh : (roomOf s).drawingHistory.isEmpty
    · have h0 : (roomOf s).drawingHistory = [] := List.isEmpty_iff.mp hh
      simp [hh, h0]
    · have h0 : (roomOf s).drawingHistory ≠ [] := by
        simpa [List.isEmpty_iff] using hh
      simp [hh, h0]

/-- Witness for `c5_join_sync_order`: a fresh connection joins the empty
server; it receives its own `user_list`, no history replay (the log is
empty), `sync_complete` with `historySize = 0`, and a join notice is
broadcast excluding it. -/
theorem c5_join_sync_order_witness :
    mapGet (handleConnect initServer 0).conns 0 =
        some { isOpen := true, userId := none, userData := none } ∧
    "u1" ∈ roomUserIds
        (serverStep (handleConnect initServer 0)
          (.msg 0 (.userJoin "u1" "Alice" "#112233") 5)).1 ∧
    (serverStep (handleConnect initServer 0)
        (.msg 0 (.userJoin "u1" "Alice" "#112233") 5)).2 =
      [OutAct.send 0 (SMsg.userList
          (roomOf (serverStep (handleConnect initServer 0)
            (.msg 0 (.userJoin "u1" "Alice" "#112233") 5)).1).getUsers)] ++
      (if (roomOf (handleConnect initServer 0)).drawingHistory.isEmpty then []
       else [OutAct.send 0 (SMsg.drawingHistory
          (roomOf (handleConnect initServer 0)).drawingHistory)]) ++
      [OutAct.send 0 (SMsg.syncComplete
          (roomOf (handleConnect initServer 0)).drawingHistory.length),
       OutAct.broadcast "default" (SMsg.userJoined "u1" "Alice" "#112233")
         (some "u1")] := by
  have h := c5_join_sync_order (handleConnect initServer 0) 0
    { isOpen := true, userId := none, userData := none }
    "u1" "Alice" "#112233" 5 (by decide) rfl rfl
  exact ⟨by decide, h.1, h.2.2.1⟩

lemma exists_mem_map {α β : Type} (l : List α) (g : α → β) (Q : β → Prop) :
    (∃ q ∈ l.map g, Q q) ↔ ∃ p ∈ l, Q (g p) := by
  constructor
  · rintro ⟨q, hq, hQ⟩
    obtain ⟨p, hp, rfl⟩ := List.mem_map.mp hq
    exact ⟨p, hp, hQ⟩
  · rintro ⟨p, hp, hQ⟩
    exact ⟨g p, List.mem_map_of_mem g hp, hQ⟩

lemma eq_of_mem_of_nodup_keys {α : Type} {l : List (Nat × α)}
    (hnd : (l.map Prod.fst).Nodup) {p q : Nat × α}
    (hp : p ∈ l) (hq : q ∈ l) (hk : p.1 = q.1) : p = q := by
  induction l with
  | nil => cases hp
  | cons a as ih =>
      rw [List.map_cons, List.nodup_cons] at hnd
      cases hp with
      | head =>
          cases hq with
          | head => rfl
          | tail _ hq' =>
              exact absurd (hk ▸ List.mem_map_of_mem Prod.fst hq') hnd.1
      | tail _ hp' =>
          cases hq with
          | head =>
              exact absurd (hk ▸ List.mem_map_of_mem Prod.fst hp') hnd.1
          | tail _ hq' => exact ih hnd.2 hp' hq'

lemma exists_mem_decompose {α : Type} {l : List (Nat × α)}
    (hnd : (l.map Prod.fst).Nodup) {c : Nat} {v : α}
    (hmem : (c, v) ∈ l) (Q : Nat × α → Prop) :
    (∃ p ∈ l, Q p) ↔ Q (c, v) ∨ (∃ p ∈ l, p.1 ≠ c ∧ Q p) := by
  constructor
  · rintro ⟨p, hp, hQ⟩
    by_cases hk : p.1 = c
    · have : p = (c, v) := eq_of_mem_of_nodup_keys hnd hp hmem hk
      exact Or.inl (this ▸ hQ)
    · exact Or.inr ⟨p, hp, hk, hQ⟩
  · rintro (hQ | ⟨p, hp, _, hQ⟩)
    · exact ⟨(c, v), hmem, hQ⟩
    · exact ⟨p, hp, hQ⟩

lemma keys_updateConn (l : List (Nat × SConn)) (c : Nat) (f : SConn → SConn) :
    (updateConn l c f).map Prod.fst = l.map Prod.fst := by
  rw [updateConn, List.map_map]
  apply List.map_congr_left
  intro p _
  by_cases hp : p.1 = c <;> simp [hp]

lemma exists_mem_updateConn {l : List (Nat × SConn)}
    (hnd : (l.map Prod.fst).Nodup) {c : Nat} {cs : SConn}
    (hmem : (c, cs) ∈ l) (f : SConn → SConn) (Q : Nat × SConn → Prop) :
    (∃ p ∈ updateConn l c f, Q p) ↔
      Q (c, f cs) ∨ ∃ p ∈ l, p.1 ≠ c ∧ Q p := by
  rw [updateConn, exists_mem_map, exists_mem_decompose hnd hmem]
  have hc : (if ((c, cs).1 == c) = true then ((c, cs).1, f (c, cs).2) else (c, cs))
      = (c, f cs) := by simp
  rw [hc]
  apply or_congr Iff.rfl
  constructor
  · rintro ⟨p, hp, hpc, hQ⟩
    rw [if_neg (by simp [hpc])] at hQ
    exact ⟨p, hp, hpc, hQ⟩
  · rintro ⟨p, hp, hpc, hQ⟩
    refine ⟨p, hp, hpc, ?_⟩
    rw [if_neg (by simp [hpc])]
    exact hQ

lemma forall_mem_updateConn {l : List (Nat × SConn)} {c : Nat}
    {f : SConn → SConn} {P : Nat × SConn → Prop}
    (hP : ∀ p ∈ l, P p) (hPf : ∀ p ∈ l, p.1 = c → P (p.1, f p.2)) :
    ∀ q ∈ updateConn l c f, P q := by
  intro q hq
  obtain ⟨p, hp, rfl⟩ := List.mem_map.mp hq
  by_cases hpc : p.1 = c
  · rw [if_pos (by simp [hpc])]
    exact hPf p hp hpc
  · rw [if_neg (by simp [hpc])]
    exact hP p hp

lemma handleConnect_ghostFree (uidOf : Nat → String) (s : ServerState)
    (c : Nat) (h : GhostFree uidOf s) : GhostFree uidOf (handleConnect s c) := by
  obtain ⟨hnd, hdisc, hiff⟩ := h
  unfold handleConnect
  by_cases hex : (mapGet s.conns c).isSome
  · rw [if_pos hex]
    exact ⟨hnd, hdisc, hiff⟩
  · rw [if_neg hex]
    have hnotmem : c ∉ s.conns.map Prod.fst := by
      rw [Option.not_isSome_iff_eq_none] at hex
      exact mapGet_eq_none_not_mem hex
    refine ⟨?_, ?_, ?_⟩
    · rw [List.map_append, List.nodup_append]
      refine ⟨hnd, List.nodup_singleton _, ?_⟩
      intro a ha hb
      rw [List.map_singleton, List.mem_singleton] at hb
      subst hb
      exact hnotmem ha
    · intro p hp u hu
      rw [List.mem_append] at hp
      cases hp with
      | inl hp' => exact hdisc p hp' u hu
      | inr hp' =>
          rw [List.mem_singleton] at hp'
          rw [hp'] at hu
          simp at hu
    · intro u
      simp only [roomUserIds] at hiff ⊢
      rw [hiff u]
      constructor
      · rintro ⟨p, hp, hQ⟩
        exact ⟨p, List.mem_append_left _ hp, hQ⟩
      · rintro ⟨p, hp, hQ⟩
        rw [List.mem_append] at hp
        cases hp with
        | inl hp' => exact ⟨p, hp', hQ⟩
        | inr hp' =>
            rw [List.mem_singleton] at hp'
            rw [hp'] at hQ
            simp at hQ

lemma handleUserJoin_ghostFree (uidOf : Nat → String)
    (s : ServerState) (c : Nat) (cs : SConn) (uname ucolor : String)
    (now : Nat) (hconn : mapGet s.conns c = some cs)
    (hopen : cs.isOpen = true) (h : GhostFree uidOf s) :
    GhostFree uidOf (handleUserJoin s c (uidOf c) uname ucolor now).1 := by
  obtain ⟨hnd, hdisc, hiff⟩ := h
  have hcmem : (c, cs) ∈ s.conns := mapGet_eq_some_mem hconn
  have hstate : (handleUserJoin s c (uidOf c) uname ucolor now).1 =
      { rooms := mapSet (getOrCreateRoom s.rooms "default") "default"
          ({ users := mapSet
               ((mapGet (getOrCreateRoom s.rooms "default") "default").getD
                 emptyRoom).users (uidOf c)
               (⟨uidOf c, uname, ucolor, now⟩ : UserData),
             drawingHistory :=
               ((mapGet (getOrCreateRoom s.rooms "default") "default").getD
                 emptyRoom).drawingHistory } : Room),
        userConnections := mapSet s.userConnections (uidOf c)
          (⟨c, "default"⟩ : ConnInfo),
        conns := updateConn s.conns c
          (fun q =>
            { q with
                userId := some (uidOf c),
                userData := some (⟨uidOf c, uname, ucolor, now⟩ : UserData) }) } :=
    rfl
  rw [hstate]
  have hnd' : ((updateConn s.conns c
      (fun q =>
        { q with
            userId := some (uidOf c),
            userData := some (⟨uidOf c, uname, ucolor, now⟩ : UserData) })).map
        Prod.fst).Nodup := by
    rw [keys_updateConn]
    exact hnd
  have hdisc' : ∀ q ∈ updateConn s.conns c
      (fun q =>
        { q with
            userId := some (uidOf c),
            userData := some (⟨uidOf c, uname, ucolor, now⟩ : UserData) }),
      ∀ u, q.2.userId = some u → u = uidOf q.1 := by
    refine forall_mem_updateConn hdisc ?_
    intro p hp hpc u hu
    simp only at hu
    rw [hpc]
    simpa using hu.symm
  refine ⟨hnd', hdisc', ?_⟩
  intro u
  simp only [roomUserIds, mapGet_mapSet_self, Option.getD_some,
    roomAfter_getOrCreateRoom]
  rw [mem_keys_mapSet]
  rw [exists_mem_updateConn hnd hcmem]
  simp only [roomUserIds] at hiff
  rw [hiff u, exists_mem_decompose hnd hcmem]
  constructor
  · rintro (⟨hQc | ⟨p, hp, hpc, hQ⟩⟩ | rfl)
    · have hu : u = uidOf c := hdisc (c, cs) hcmem u hQc.2
      exact Or.inl ⟨hopen, by rw [hu]⟩
    · exact Or.inr ⟨p, hp, hpc, hQ⟩
    · exact Or.inl ⟨hopen, rfl⟩
  · rintro (hQc | ⟨p, hp, hpc, hQ⟩)
    · have : u = uidOf c := by
        have := hQc.2
        simpa using this.symm
      exact Or.inr this
    · exact Or.inl (Or.inr ⟨p, hp, hpc, hQ⟩)

lemma handleSocketClose_ghostFree (uidOf : Nat → String)
    (hinj : ∀ c c', uidOf c = uidOf c' → c = c')
    (s : ServerState) (c : Nat) (cs : SConn)
    (hconn : mapGet s.conns c = some cs) (_hopen : cs.isOpen = true)
    (h : GhostFree uidOf s) :
    GhostFree uidOf (handleSocketClose s c cs).1 := by
  obtain ⟨hnd, hdisc, hiff⟩ := h
  have hcmem : (c, cs) ∈ s.conns := mapGet_eq_some_mem hconn
  have hdisc' : ∀ q ∈ updateConn s.conns c (fun q => { q with isOpen := false }),
      ∀ u, q.2.userId = some u → u = uidOf q.1 := by
    refine forall_mem_updateConn hdisc ?_
    intro p hp hpc u hu
    simp only at hu
    rw [hpc]
    exact hpc ▸ hdisc p hp u hu
  have hnd' : ((updateConn s.conns c
      (fun q => { q with isOpen := false })).map Prod.fst).Nodup := by
    rw [keys_updateConn]
    exact hnd
  cases huid : cs.userId with
  | none =>
      have hstate : handleSocketClose s c cs =
          ({ s with
              conns := updateConn s.conns c (fun q => { q with isOpen := false }) },
            []) := by
        unfold handleSocketClose
        rw [huid]
      rw [hstate]
      refine ⟨hnd', hdisc', ?_⟩
      intro u
      simp only [roomUserIds] at hiff ⊢
      rw [hiff u, exists_mem_decompose hnd hcmem]
      rw [exists_mem_updateConn hnd hcmem]
      constructor
      · rintro (hQc | ⟨p, hp, hpc, hQ⟩)
        · rw [huid] at hQc
          simp at hQc
        · exact Or.inr ⟨p, hp, hpc, hQ⟩
      · rintro (hQc | ⟨p, hp, hpc, hQ⟩)
        · simp at hQc
        · exact Or.inr ⟨p, hp, hpc, hQ⟩
  | some uid =>
      have huidc : uid = uidOf c := hdisc (c, cs) hcmem uid huid
      have hstate : handleSocketClose s c cs =
          ({ rooms := mapSet (getOrCreateRoom s.rooms "default") "default"
               ({ users := mapDelete
                    ((mapGet (getOrCreateRoom s.rooms "default") "default").getD
                      emptyRoom).users uid,
                  drawingHistory :=
                    ((mapGet (getOrCreateRoom s.rooms "default") "default").getD
                      emptyRoom).drawingHistory } : Room),
             userConnections := mapDelete s.userConnections uid,
             conns := updateConn s.conns c (fun q => { q with isOpen := false }) },
           [OutAct.broadcast "default"
             (SMsg.userLeft uid ((cs.userData.map (·.userName)).getD "Unknown"))
             none]) := by
        unfold handleSocketClose
        rw [huid]
      rw [hstate]
      refine ⟨hnd', hdisc', ?_⟩
      intro u
      simp only [roomUserIds, mapGet_mapSet_self, Option.getD_some,
        roomAfter_getOrCreateRoom]
      rw [mem_keys_mapDelete]
      rw [exists_mem_updateConn hnd hcmem]
      simp only [roomUserIds] at hiff
      rw [hiff u, exists_mem_decompose hnd hcmem]
      constructor
      · rintro ⟨(hQc | ⟨p, hp, hpc, hQ⟩), hne⟩
        · exfalso
          rw [huid] at hQc
          have hu : u = uid := by simpa using hQc.2.symm
          exact hne (by rw [hu])
        · exact Or.inr ⟨p, hp, hpc, hQ⟩
      · rintro (hQc | ⟨p, hp, hpc, hQ⟩)
        · simp at hQc
        · have hu : u = uidOf p.1 := hdisc p hp u hQ.2
          refine ⟨Or.inr ⟨p, hp, hpc, hQ⟩, ?_⟩
          intro hueq
          exact hpc (hinj p.1 c (by rw [← hu, hueq, huidc]))

lemma handleDrawing_ghostFree (uidOf : Nat → String) (s : ServerState)
    (cs : SConn) (ops : List Op) (ts now : Nat) (h : GhostFree uidOf s) :
    GhostFree uidOf (handleDrawing s cs ops ts now).1 := by
  unfold handleDrawing
  cases cs.userId with
  | none => exact h
  | some uid =>
      obtain ⟨hnd, hdisc, hiff⟩ := h
      refine ⟨hnd, hdisc, ?_⟩
      intro u
      simp only [roomUserIds, mapGet_mapSet_self, Option.getD_some,
        roomAfter_getOrCreateRoom]
      simp only [roomUserIds] at hiff
      exact hiff u

lemma handleCursorMove_fst (s : ServerState) (cs : SConn) (x y : Int)
    (ts : Nat) : (handleCursorMove s cs x y ts).1 = s := by
  unfold handleCursorMove
  cases cs.userId <;> rfl

lemma serverStep_ghostFree (uidOf : Nat → String)
    (hinj : ∀ c c', uidOf c = uidOf c' → c = c')
    (s : ServerState) (e : SEvent)
    (hok : joinConsistent uidOf e = true) (h : GhostFree uidOf s) :
    GhostFree uidOf (serverStep s e).1 := by
  cases e with
  | connect c => exact handleConnect_ghostFree uidOf s c h
  | msg c m now =>
      simp only [serverStep]
      cases hconn : mapGet s.conns c with
      | none => exact h
      | some cs =>
          dsimp only
          by_cases ho : cs.isOpen = true
          · rw [if_pos ho]
            cases m with
            | userJoin uid un uc =>
                have huid : uid = uidOf c := by
                  simpa [joinConsistent] using hok
                subst huid
                exact handleUserJoin_ghostFree uidOf s c cs un uc now hconn ho h
            | drawing ops ts => exact handleDrawing_ghostFree uidOf s cs ops ts now h
            | cursorMove x y ts =>
                rw [handleCursorMove_fst]
                exact h
          · rw [if_neg ho]
            exact h
  | close c =>
      simp only [serverStep]
      cases hconn : mapGet s.conns c with
      | none => exact h
      | some cs =>
          dsimp only
          by_cases ho : cs.isOpen = true
          · rw [if_pos ho]
            exact handleSocketClose_ghostFree uidOf hinj s c cs hconn ho h
          · rw [if_neg ho]
            exact h

lemma runServer_ghostFree (uidOf : Nat → String)
    (hinj : ∀ c c', uidOf c = uidOf c' → c = c') (evs : List SEvent) :
    ∀ s : ServerState, (∀ e ∈ evs, joinConsistent uidOf e = true) →
      GhostFree uidOf s → GhostFree uidOf (runServer s evs) := by
  induction evs with
  | nil => intro s _ h; exact h
  | cons e es ih =>
      intro s hok h
      have hcons : runServer s (e :: es) = runServer (serverStep s e).1 es := rfl
      rw [hcons]
      exact ih _ (fun f hf => hok f (List.mem_cons_of_mem _ hf))
        (serverStep_ghostFree uidOf hinj s e (hok e (List.mem_cons_self _ _)) h)

/-- C4 amended: a second `user_join` on an Active connection is processed
as a fresh join, not ignored, and the connection is not closed; room state
stays uncorrupted exactly when every join on a given connection carries the
connection's own (globally unique) client id — which is how the client
behaves, re-sending its one generated id.  Under that discipline, after
any sequence of connects, joins, duplicate joins, and disconnects, the
participant set held by the room equals the set of ids of currently-open
joined connections, with no ghost entries after a close.  (A duplicate join
carrying a *different* id breaks this: see the counterexample.) -/
theorem c4_amended_no_ghosts (uidOf : Nat → String) (evs : List SEvent)
    (hinj : ∀ c c', uidOf c = uidOf c' → c = c')
    (hjoin : ∀ e ∈ evs, joinConsistent uidOf e = true) :
    ∀ u, u ∈ roomUserIds (runServer initServer evs) ↔
      ∃ p ∈ (runServer initServer evs).conns,
        p.2.isOpen = true ∧ p.2.userId = some u := by
  have h0 : GhostFree uidOf initServer := by
    refine ⟨List.nodup_nil, ?_, ?_⟩
    · intro p hp
      simp [initServer] at hp
    · intro u
      constructor
      · intro hu
        simp [initServer, roomUserIds, mapGet, emptyRoom] at hu
      · rintro ⟨p, hp, _⟩
        simp [initServer] at hp
  exact (runServer_ghostFree uidOf hinj evs initServer hjoin h0).2.2

/-- Witness for `c4_amended_no_ghosts`: connection 1 joins with its own
client id (`"a"`) and closes; the id function `c ↦ "a" * c` is injective
and the trace is join-consistent, so the no-ghost equivalence holds. -/
theorem c4_amended_no_ghosts_witness :
    (∀ c c' : Nat,
        String.mk (List.replicate c 'a') = String.mk (List.replicate c' 'a') →
        c = c') ∧
    ("a" ∈ roomUserIds (runServer initServer
        [.connect 1, .msg 1 (.userJoin "a" "Alice" "#112233") 5, .close 1]) ↔
      ∃ p ∈ (runServer initServer
          [.connect 1, .msg 1 (.userJoin "a" "Alice" "#112233") 5,
           .close 1]).conns,
        p.2.isOpen = true ∧ p.2.userId = some "a") := by
  have hinj : ∀ c c' : Nat,
      String.mk (List.replicate c 'a') = String.mk (List.replicate c' 'a') →
      c = c' := by
    intro c c' h
    have h2 : List.replicate c 'a' = List.replicate c' 'a' :=
      congrArg String.data h
    have h3 := congrArg List.length h2
    simpa using h3
  exact ⟨hinj,
    c4_amended_no_ghosts (fun c => String.mk (List.replicate c 'a'))
      [.connect 1, .msg 1 (.userJoin "a" "Alice" "#112233") 5, .close 1]
      hinj (by decide) "a"⟩

/-- C4 counterexample: one connection joins as `"u1"`, joins again as
`"u2"` (a duplicate join on an Active connection, processed as a fresh
join), then closes.  Only `"u2"` is removed on close: `"u1"` remains in
the room's participant map even though no open connection is associated
with it — the participant set no longer equals the set of open joined
connections, so the claim fails at this input. -/
theorem c4_duplicate_join_ghost :
    "u1" ∈ roomUserIds
        (runServer initServer
          [.connect 0, .msg 0 (.userJoin "u1" "Alice" "#111111") 1,
           .msg 0 (.userJoin "u2" "Alice" "#111111") 2, .close 0]) ∧
    ¬ ∃ p ∈ (runServer initServer
          [.connect 0, .msg 0 (.userJoin "u1" "Alice" "#111111") 1,
           .msg 0 (.userJoin "u2" "Alice" "#111111") 2, .close 0]).conns,
        p.2.isOpen = true ∧ p.2.userId = some "u1" := by
  constructor
  · decide
  · decide

end CollabCanvas
